import Mathlib

/-!
# Shallow embedding of the shaft ledger/session database layer

This file embeds the SQLite-backed database layer of the `shaft` IOU
tracker (`src/db.rs`) and proves properties of its operations: the
conservation-of-value invariant, balance correctness, error handling of
appends, the ordering contracts of `get_last_transactions` and
`get_all_users`, and the session-token model.

Modelling conventions:
* SQL tables are lists of rows in insertion order; the autoincrement
  `id` column of `transactions` is the list position.
* `chrono::DateTime<Utc>` is modelled at second precision as an `Int`
  Unix timestamp, matching the stored `time_sec` column (the code stores
  `datetime.timestamp()` and reconstructs with `Utc.timestamp(time_sec, 0)`).
* Each mutating operation returns its result (an `Except` over the
  database error type) together with the post-state, so that partial
  writes of multi-statement operations are representable.
* The random 32-character token drawn in `create_token_for_user` is
  passed in as an explicit argument (the embedding is deterministic in
  the RNG output).
* Infrastructure failures (connection pool exhaustion, I/O faults) are
  not modelled: the embedding covers the logic executed on a healthy
  connection. Constraint violations reported by SQLite surface as the
  `sqliteError` variant, as in the source, where `DatabaseError` has
  exactly the three variants below (payloads of the infrastructure
  variants are omitted).
-/

namespace Shaft

/-- A single transaction between two users (src/db.rs `Transaction`).
`datetime` is the Unix timestamp in seconds. -/
structure Transaction where
  shafter : String
  shaftee : String
  amount : Int
  datetime : Int
  reason : String
deriving Repr, DecidableEq

/-- A user and their balance (src/db.rs `User`). -/
structure User where
  user_id : String
  display_name : String
  balance : Int
deriving Repr, DecidableEq

/-- A stored row of the `transactions` table: columns
`shafter, shaftee, amount, time_sec, reason`; the autoincrement `id` is
the position in the list. -/
structure TxnRow where
  shafter : String
  shaftee : String
  amount : Int
  time_sec : Int
  reason : String
deriving Repr, DecidableEq

/-- The row written by `shaft_user`: `time_sec = datetime.timestamp()`. -/
def rowOfTransaction (t : Transaction) : TxnRow :=
  ⟨t.shafter, t.shaftee, t.amount, t.datetime, t.reason⟩

/-- The `Transaction` reconstructed by `get_last_transactions`:
`datetime = Utc.timestamp(time_sec, 0)`. -/
def transactionOfRow (r : TxnRow) : Transaction :=
  ⟨r.shafter, r.shaftee, r.amount, r.time_sec, r.reason⟩

/-- The database state: the four tables of the schema
(`github_users(user_id PK, github_id)`, `users(user_id UNIQUE, display_name)`,
`tokens(user_id, token)` — no constraints — and `transactions`), each as a
list of rows in insertion order. -/
structure DBState where
  github_users : List (String × String)
  users : List (String × String)
  tokens : List (String × String)
  transactions : List TxnRow
deriving Repr, DecidableEq

/-- The empty database. -/
def emptyDB : DBState := ⟨[], [], [], []⟩

/-- src/db.rs `DatabaseError`. The source has exactly these three
variants; infrastructure payloads (source error, backtrace) are omitted. -/
inductive DatabaseError where
  | connectionPoolError : DatabaseError
  | sqliteError : DatabaseError
  | unknownUser (user_id : String) : DatabaseError
deriving Repr, DecidableEq

/-- `COALESCE(SUM(amount), 0)`: SQL `SUM` over an empty set is NULL,
which `COALESCE` turns into 0. -/
def coalesceSum (l : List Int) : Int :=
  match l with
  | [] => 0
  | _ => l.sum

/-- `get_balance_for_user` (src/db.rs:272-298):
`(SELECT COALESCE(SUM(amount),0) FROM transactions WHERE shafter = u) -
 (SELECT COALESCE(SUM(amount),0) FROM transactions WHERE shaftee = u)`. -/
def get_balance_for_user (u : String) (st : DBState) : Int :=
  coalesceSum ((st.transactions.filter (fun r => r.shafter == u)).map (fun r => r.amount)) -
    coalesceSum ((st.transactions.filter (fun r => r.shaftee == u)).map (fun r => r.amount))

/-- The `SELECT shafter AS user_id, SUM(amount) ... GROUP BY shafter` arm of
the balance subquery: a group row exists iff `u` occurs as shafter. -/
def shafterGroup (u : String) (txns : List TxnRow) : Option Int :=
  if txns.any (fun r => r.shafter == u) then
    some (((txns.filter (fun r => r.shafter == u)).map (fun r => r.amount)).sum)
  else none

/-- The `SELECT shaftee AS user_id, -SUM(amount) ... GROUP BY shaftee` arm. -/
def shafteeGroup (u : String) (txns : List TxnRow) : Option Int :=
  if txns.any (fun r => r.shaftee == u) then
    some (-((txns.filter (fun r => r.shaftee == u)).map (fun r => r.amount)).sum)
  else none

/-- The inlined balance subquery of `get_user_from_token` / `get_all_users`:
the UNION ALL of the two grouped arms, regrouped by `user_id` with `SUM`;
`none` when `u` occurs in no transaction (the LEFT JOIN then yields NULL). -/
def balanceSubquery (u : String) (txns : List TxnRow) : Option Int :=
  match shafterGroup u txns, shafteeGroup u txns with
  | none, none => none
  | a, b => some (a.getD 0 + b.getD 0)

/-- `get_user_from_token` (src/db.rs:219-270): first row of
`tokens INNER JOIN users USING (user_id) LEFT JOIN (balance subquery)
WHERE token = $1`, with `COALESCE(balance, 0)`;
`QueryReturnedNoRows` becomes `none`. -/
def get_user_from_token (token : String) (st : DBState) : Option User :=
  ((st.tokens.filter (fun r => r.2 == token)).filterMap
    (fun r => (st.users.lookup r.1).map
      (fun d => User.mk r.1 d ((balanceSubquery r.1 st.transactions).getD 0)))).head?

/-- The comparison of `ORDER BY balance ASC` on the rows of `get_all_users`. -/
def byBalance (a b : String × User) : Prop := a.2.balance ≤ b.2.balance

instance : DecidableRel byBalance :=
  fun a b => inferInstanceAs (Decidable (a.2.balance ≤ b.2.balance))

instance : IsTotal (String × User) byBalance :=
  ⟨fun a b => Int.le_total a.2.balance b.2.balance⟩

instance : IsTrans (String × User) byBalance :=
  ⟨fun _ _ _ hab hbc => le_trans hab hbc⟩

/-- `get_all_users` (src/db.rs:300-345): every row of `users`, LEFT JOINed
with the balance subquery under `COALESCE(balance, 0)`, `ORDER BY balance
ASC`, collected in order into a `LinearMap` (an insertion-ordered
association list). A stable sort stands in for SQLite's unspecified tie
order. -/
def get_all_users (st : DBState) : List (String × User) :=
  List.insertionSort byBalance
    (st.users.map (fun p =>
      (p.1, User.mk p.1 p.2 ((balanceSubquery p.1 st.transactions).getD 0))))

/-- `get_user_by_github_id` (src/db.rs:120-149):
`SELECT user_id FROM github_users WHERE github_id = $1`, first row;
no rows becomes `none`. -/
def get_user_by_github_id (gid : String) (st : DBState) : Option String :=
  ((st.github_users.filter (fun r => r.2 == gid)).map (fun r => r.1)).head?

/-- `add_user_by_github_id` (src/db.rs:151-179): two INSERTs in sequence,
`INSERT INTO github_users (user_id, github_id) VALUES ($1, $1)` (note both
columns get the github id) then `INSERT INTO users (user_id, display_name)
VALUES ($1, $2)`. A PRIMARY KEY / UNIQUE violation aborts the statement
with a SQLite error; the two statements are not wrapped in a transaction,
so a failure of the second leaves the first committed. -/
def add_user_by_github_id (gid name : String) (st : DBState) :
    Except DatabaseError String × DBState :=
  if st.github_users.any (fun r => r.1 == gid) then
    (Except.error DatabaseError.sqliteError, st)
  else
    if st.users.any (fun r => r.1 == gid) then
      (Except.error DatabaseError.sqliteError,
        { st with github_users := st.github_users ++ [(gid, gid)] })
    else
      (Except.ok gid,
        { st with
          github_users := st.github_users ++ [(gid, gid)],
          users := st.users ++ [(gid, name)] })

/-- `create_token_for_user` (src/db.rs:181-202): draws a random
32-character alphanumeric token (here the argument `tok`) and runs
`INSERT INTO tokens (user_id, token) VALUES ($1, $2)`. The `tokens` table
carries no constraints, so the INSERT always succeeds; no check on
`user_id` is performed. -/
def create_token_for_user (tok user_id : String) (st : DBState) :
    Except DatabaseError String × DBState :=
  (Except.ok tok, { st with tokens := st.tokens ++ [(user_id, tok)] })

/-- `delete_token` (src/db.rs:204-217):
`DELETE FROM tokens WHERE token = $1`. -/
def delete_token (token : String) (st : DBState) :
    Except DatabaseError Unit × DBState :=
  (Except.ok (), { st with tokens := st.tokens.filter (fun r => !(r.2 == token)) })

/-- `shaft_user` (src/db.rs:347-390): `SELECT user_id FROM users WHERE
user_id = shaftee`; `QueryReturnedNoRows` yields `UnknownUser{shaftee}`
before anything is written; otherwise the row is INSERTed with
`time_sec = datetime.timestamp()`. The shafter is not checked. -/
def shaft_user (t : Transaction) (st : DBState) :
    Except DatabaseError Unit × DBState :=
  if st.users.any (fun r => r.1 == t.shaftee) then
    (Except.ok (), { st with transactions := st.transactions ++ [rowOfTransaction t] })
  else
    (Except.error (DatabaseError.unknownUser t.shaftee), st)

/-- `get_last_transactions` (src/db.rs:392-428):
`SELECT ... FROM transactions ORDER BY id DESC LIMIT $1`, each row mapped
back to a `Transaction`. -/
def get_last_transactions (limit : Nat) (st : DBState) : List Transaction :=
  ((st.transactions.reverse).take limit).map transactionOfRow

/-! ### Sequence semantics

A run of the mutating core operations against a single database, starting
from the empty database. Each step keeps the post-state returned by the
operation, whether the call succeeded or failed (a failed call's
post-state records exactly the writes that had committed before the
failure). -/

/-- One mutating core operation. The `tok` argument of `createToken` is
the 32-character random token drawn by the RNG inside
`create_token_for_user`. -/
inductive Op where
  | addUser (gid name : String) : Op
  | createToken (tok uid : String) : Op
  | revoke (tok : String) : Op
  | shaft (t : Transaction) : Op
deriving Repr, DecidableEq

/-- Post-state of one operation. -/
def step (st : DBState) : Op → DBState
  | Op.addUser gid name => (add_user_by_github_id gid name st).2
  | Op.createToken tok uid => (create_token_for_user tok uid st).2
  | Op.revoke tok => (delete_token tok st).2
  | Op.shaft t => (shaft_user t st).2

/-- The state reached by running a sequence of operations from the empty
database. -/
def runOps (ops : List Op) : DBState := ops.foldl step emptyDB

/-- The tokens drawn by the RNG for the `createToken` steps of a run, in
order. -/
def createdTokens : List Op → List String
  | [] => []
  | Op.createToken tok _ :: rest => tok :: createdTokens rest
  | Op.addUser _ _ :: rest => createdTokens rest
  | Op.revoke _ :: rest => createdTokens rest
  | Op.shaft _ :: rest => createdTokens rest

/-- A sequence of `shaft_user` calls against one database, keeping each
call's post-state (a failed call leaves the state unchanged, since the
shaftee check precedes the INSERT). -/
def applyShafts : List Transaction → DBState → DBState
  | [], st => st
  | t :: ts, st => applyShafts ts (shaft_user t st).2

/-! ### Specification-side balance definition

`specNetBalance` recomputes a balance independently of
`get_balance_for_user`, as one pass over the ledger, following the spec's
formula `sum(amount where shafter = U) − sum(amount where shaftee = U)`.
It exists only to be compared with the embedded query. -/

/-- Specification-side definition: the net effect of one ledger row on
user `u`. -/
def specNetRow (u : String) (r : TxnRow) : Int :=
  (if r.shafter = u then r.amount else 0) - (if r.shaftee = u then r.amount else 0)

/-- Specification-side definition: `u`'s balance recomputed independently
as a single pass over the ledger. -/
def specNetBalance (u : String) (txns : List TxnRow) : Int :=
  (txns.map (specNetRow u)).sum

/-! ### Helper lemmas -/

theorem coalesceSum_eq_sum (l : List Int) : coalesceSum l = l.sum := by
  cases l <;> rfl

theorem filter_eq_nil_of_not_any (p : TxnRow → Bool) (l : List TxnRow)
    (h : ¬ l.any p = true) : l.filter p = [] := by
  induction l with
  | nil => rfl
  | cons r l ih =>
    simp only [List.any_cons, Bool.or_eq_true, not_or] at h
    simp [List.filter_cons, Bool.eq_false_iff.mpr h.1, ih h.2]

theorem sum_map_filter (p : TxnRow → Bool) (f : TxnRow → Int) (l : List TxnRow) :
    ((l.filter p).map f).sum = (l.map (fun r => if p r then f r else 0)).sum := by
  induction l with
  | nil => rfl
  | cons r l ih =>
    by_cases h : p r = true
    · simp [List.filter_cons, h, ih]
    · simp [List.filter_cons, Bool.eq_false_iff.mpr h, ih]

theorem get_balance_eq_specNetBalance (u : String) (st : DBState) :
    get_balance_for_user u st = specNetBalance u st.transactions := by
  unfold get_balance_for_user specNetBalance
  rw [coalesceSum_eq_sum, coalesceSum_eq_sum, sum_map_filter, sum_map_filter]
  induction st.transactions with
  | nil => rfl
  | cons r l ih =>
    simp only [List.map_cons, List.sum_cons, specNetRow, beq_iff_eq] at ih ⊢
    omega

theorem balanceSubquery_eq_balance (u : String) (st : DBState) :
    (balanceSubquery u st.transactions).getD 0 = get_balance_for_user u st := by
  unfold balanceSubquery shafterGroup shafteeGroup get_balance_for_user
  by_cases h1 : st.transactions.any (fun r => r.shafter == u) = true <;>
    by_cases h2 : st.transactions.any (fun r => r.shaftee == u) = true
  · simp only [h1, h2, if_pos trivial, if_true]
    simp [coalesceSum_eq_sum]
    omega
  · rw [filter_eq_nil_of_not_any _ _ h2]
    simp [h1, h2, coalesceSum_eq_sum]
  · rw [filter_eq_nil_of_not_any _ _ h1]
    simp [h1, h2, coalesceSum_eq_sum]
  · rw [filter_eq_nil_of_not_any _ _ h1, filter_eq_nil_of_not_any _ _ h2]
    simp [h1, h2]

theorem sum_map_sub_int (l : List String) (f g : String → Int) :
    (l.map (fun x => f x - g x)).sum = (l.map f).sum - (l.map g).sum := by
  induction l with
  | nil => rfl
  | cons a l ih => simp [ih]; ring

theorem sum_map_add_int (l : List String) (f g : String → Int) :
    (l.map (fun x => f x + g x)).sum = (l.map f).sum + (l.map g).sum := by
  induction l with
  | nil => rfl
  | cons a l ih => simp [ih]; ring

theorem sum_map_ite_zero (keys : List String) (a : String) (x : Int)
    (h : a ∉ keys) :
    (keys.map (fun u => if a = u then x else 0)).sum = 0 := by
  induction keys with
  | nil => rfl
  | cons k ks ih =>
    simp only [List.mem_cons, not_or] at h
    simp [h.1, ih h.2]

theorem sum_map_ite_eq (keys : List String) (a : String) (x : Int)
    (hnd : keys.Nodup) (ha : a ∈ keys) :
    (keys.map (fun u => if a = u then x else 0)).sum = x := by
  induction keys with
  | nil => exact absurd ha (List.not_mem_nil a)
  | cons k ks ih =>
    rcases List.mem_cons.mp ha with h | h
    · subst h
      simp [sum_map_ite_zero ks a x (List.nodup_cons.mp hnd).1]
    · have hak : a ≠ k := fun he => (List.nodup_cons.mp hnd).1 (he ▸ h)
      simp [hak, ih (List.nodup_cons.mp hnd).2 h]

theorem sum_keys_specNetRow (keys : List String) (hnd : keys.Nodup) (r : TxnRow)
    (hs : r.shafter ∈ keys) (ht : r.shaftee ∈ keys) :
    (keys.map (fun u => specNetRow u r)).sum = 0 := by
  unfold specNetRow
  rw [sum_map_sub_int keys (fun u => if r.shafter = u then r.amount else 0)
    (fun u => if r.shaftee = u then r.amount else 0)]
  rw [sum_map_ite_eq keys r.shafter r.amount hnd hs,
    sum_map_ite_eq keys r.shaftee r.amount hnd ht]
  omega

theorem sum_keys_specNetBalance (keys : List String) (hnd : keys.Nodup)
    (txns : List TxnRow)
    (h : ∀ r ∈ txns, r.shafter ∈ keys ∧ r.shaftee ∈ keys) :
    (keys.map (fun u => specNetBalance u txns)).sum = 0 := by
  induction txns with
  | nil => simp [specNetBalance]
  | cons r rs ih =>
    have hr := h r (List.mem_cons_self r rs)
    have hstep : (keys.map (fun u => specNetBalance u (r :: rs))).sum =
        (keys.map (fun u => specNetRow u r)).sum +
          (keys.map (fun u => specNetBalance u rs)).sum := by
      rw [← sum_map_add_int keys (fun u => specNetRow u r) (fun u => specNetBalance u rs)]
      simp [specNetBalance]
    rw [hstep, sum_keys_specNetRow keys hnd r hr.1 hr.2,
      ih (fun r' hr' => h r' (List.mem_cons_of_mem r hr'))]
    simp

theorem shaft_user_users (t : Transaction) (st : DBState) :
    (shaft_user t st).2.users = st.users := by
  unfold shaft_user
  split <;> rfl

theorem applyShafts_users (ts : List Transaction) (st : DBState) :
    (applyShafts ts st).users = st.users := by
  induction ts generalizing st with
  | nil => rfl
  | cons t ts ih => rw [applyShafts, ih, shaft_user_users]

theorem users_any_iff (st : DBState) (s : String) :
    (st.users.any (fun r => r.1 == s) = true) ↔ s ∈ st.users.map Prod.fst := by
  simp only [List.any_eq_true, List.mem_map, beq_iff_eq]

theorem applyShafts_parties (ts : List Transaction) (st : DBState)
    (h0 : ∀ r ∈ st.transactions,
      r.shafter ∈ st.users.map Prod.fst ∧ r.shaftee ∈ st.users.map Prod.fst)
    (hsh : ∀ t ∈ ts, t.shafter ∈ st.users.map Prod.fst) :
    ∀ r ∈ (applyShafts ts st).transactions,
      r.shafter ∈ st.users.map Prod.fst ∧ r.shaftee ∈ st.users.map Prod.fst := by
  induction ts generalizing st with
  | nil => exact h0
  | cons t ts ih =>
    rw [applyShafts]
    by_cases hc : st.users.any (fun r => r.1 == t.shaftee) = true
    · have hstep : (shaft_user t st).2 =
          { st with transactions := st.transactions ++ [rowOfTransaction t] } := by
        unfold shaft_user
        rw [if_pos hc]
      rw [hstep]
      refine ih _ ?_ ?_
      · intro r hr
        rcases List.mem_append.mp hr with h | h
        · exact h0 r h
        · have he : r = rowOfTransaction t := List.mem_singleton.mp h
          subst he
          exact ⟨hsh t (List.mem_cons_self t ts), (users_any_iff st t.shaftee).mp hc⟩
      · intro t' ht'
        exact hsh t' (List.mem_cons_of_mem t ht')
    · have hstep : (shaft_user t st).2 = st := by
        unfold shaft_user
        rw [if_neg hc]
      rw [hstep]
      exact ih st h0 (fun t' ht' => hsh t' (List.mem_cons_of_mem t ht'))

theorem specNetBalance_eq_zero (u : String) (l : List TxnRow)
    (h : ∀ r ∈ l, r.shafter ≠ u ∧ r.shaftee ≠ u) : specNetBalance u l = 0 := by
  induction l with
  | nil => rfl
  | cons r rs ih =>
    have hr := h r (List.mem_cons_self r rs)
    have hrs := ih (fun r' h' => h r' (List.mem_cons_of_mem r h'))
    simp only [specNetBalance, specNetRow, List.map_cons, List.sum_cons] at hrs ⊢
    simp [hr.1, hr.2, hrs]

/-! ### Example states used by counterexamples and witnesses -/

/-- One registered user and no transactions. -/
def exOneUser : DBState := ⟨[], [("alice", "Alice")], [], []⟩

/-- Two registered users and no transactions. -/
def exTwoUsers : DBState := ⟨[], [("alice", "Alice"), ("bob", "Bob")], [], []⟩

/-- A transaction whose shafter is not a registered user but whose shaftee
is. -/
def exGhostShafter : Transaction := ⟨"ghost", "alice", 1, 0, "x"⟩

/-- A transaction whose shaftee is not a registered user. -/
def exGhostShaftee : Transaction := ⟨"alice", "ghost", 5, 0, "r"⟩

/-- The end-to-end scenario transaction: alice shafts bob for 500. -/
def exLunch : Transaction := ⟨"alice", "bob", 500, 0, "lunch"⟩

/-! ### Claims -/

/-- C1 (counterexample): `shaft_user` does not validate the shafter, so an
append whose shafter is not a registered user succeeds, after which the
sum of `get_balance_for_user` over all registered users is `-1`, not `0`.
The run starts from an empty ledger with one registered user. -/
theorem conservation_counterexample :
    (shaft_user exGhostShafter exOneUser).1 = Except.ok () ∧
    (((shaft_user exGhostShafter exOneUser).2.users.map Prod.fst).map
      (fun u => get_balance_for_user u (shaft_user exGhostShafter exOneUser).2)).sum
      = -1 := by
  constructor
  · rfl
  · decide

/-- C1 (amended): for every sequence of `shaft_user` calls starting from a
state with an empty ledger, in which every transaction's shafter is a
registered user (the code checks only the shaftee), at every point of the
sequence the sum over all registered users of `get_balance_for_user`
equals zero. -/
theorem conservation_of_value (st0 : DBState) (ts : List Transaction) (k : Nat)
    (h0 : st0.transactions = [])
    (hnd : (st0.users.map Prod.fst).Nodup)
    (hsh : ∀ t ∈ ts, t.shafter ∈ st0.users.map Prod.fst) :
    (((applyShafts (ts.take k) st0).users.map Prod.fst).map
      (fun u => get_balance_for_user u (applyShafts (ts.take k) st0))).sum = 0 := by
  have husers := applyShafts_users (ts.take k) st0
  have hparties := applyShafts_parties (ts.take k) st0
    (by rw [h0]; intro r hr; exact absurd hr (List.not_mem_nil r))
    (fun t ht => hsh t (List.mem_of_mem_take ht))
  have hbal : ∀ u, get_balance_for_user u (applyShafts (ts.take k) st0) =
      specNetBalance u (applyShafts (ts.take k) st0).transactions :=
    fun u => get_balance_eq_specNetBalance u _
  rw [husers]
  simp only [hbal]
  exact sum_keys_specNetBalance (st0.users.map Prod.fst) hnd
    (applyShafts (ts.take k) st0).transactions hparties

/-- Witness for C1 (amended) at the end-to-end scenario: alice shafts bob
for 500 starting from two registered users; the balances sum to zero. -/
theorem conservation_of_value_witness :
    (((applyShafts ([exLunch].take 1) exTwoUsers).users.map Prod.fst).map
      (fun u => get_balance_for_user u (applyShafts ([exLunch].take 1) exTwoUsers))).sum
      = 0 :=
  conservation_of_value exTwoUsers [exLunch] 1 rfl (by decide) (by decide)

/-- C2: `get_balance_for_user u` equals the independently recomputed
`sum(amount where shafter = u) − sum(amount where shaftee = u)`, and a
user occurring in no transaction has balance `0` (the operation is total:
it returns an integer, not an error). -/
theorem balance_correctness (u : String) (st : DBState) :
    get_balance_for_user u st = specNetBalance u st.transactions ∧
    ((∀ r ∈ st.transactions, r.shafter ≠ u ∧ r.shaftee ≠ u) →
      get_balance_for_user u st = 0) := by
  refine ⟨get_balance_eq_specNetBalance u st, fun h => ?_⟩
  rw [get_balance_eq_specNetBalance u st]
  exact specNetBalance_eq_zero u st.transactions h

/-- Witness for C2: a user occurring in no transaction of `exOneUser` has
balance `0` and agrees with the recomputation. -/
theorem balance_correctness_witness :
    get_balance_for_user "nobody" exOneUser =
      specNetBalance "nobody" exOneUser.transactions ∧
    get_balance_for_user "nobody" exOneUser = 0 :=
  ⟨(balance_correctness "nobody" exOneUser).1,
    (balance_correctness "nobody" exOneUser).2 (by decide)⟩

/-- C3: when the shaftee is not a registered user, `shaft_user` fails with
`UnknownUser` carrying the shaftee's id and leaves the database unchanged
(`get_all_users` and the length of `get_last_transactions` are unaffected);
and the shafter is never checked: any transaction whose shaftee is
registered succeeds. -/
theorem append_unknown_shaftee (t : Transaction) (st : DBState)
    (h : t.shaftee ∉ st.users.map Prod.fst) :
    (shaft_user t st).1 = Except.error (DatabaseError.unknownUser t.shaftee) ∧
    get_all_users (shaft_user t st).2 = get_all_users st ∧
    (∀ n, (get_last_transactions n (shaft_user t st).2).length =
      (get_last_transactions n st).length) ∧
    (∀ t' : Transaction, t'.shaftee ∈ st.users.map Prod.fst →
      (shaft_user t' st).1 = Except.ok ()) := by
  have hc : ¬ st.users.any (fun r => r.1 == t.shaftee) = true :=
    fun hh => h ((users_any_iff st t.shaftee).mp hh)
  have hstate : (shaft_user t st).2 = st := by
    unfold shaft_user
    rw [if_neg hc]
  refine ⟨?_, by rw [hstate], fun n => by rw [hstate], fun t' ht' => ?_⟩
  · unfold shaft_user
    rw [if_neg hc]
  · unfold shaft_user
    rw [if_pos ((users_any_iff st t'.shaftee).mpr ht')]

/-- Witness for C3: appending to the unregistered shaftee "ghost" fails
with `UnknownUser "ghost"` and changes nothing, while a transaction with
an unregistered shafter but registered shaftee succeeds. -/
theorem append_unknown_shaftee_witness :
    (shaft_user exGhostShaftee exOneUser).1 =
      Except.error (DatabaseError.unknownUser "ghost") ∧
    get_all_users (shaft_user exGhostShaftee exOneUser).2 = get_all_users exOneUser ∧
    (get_last_transactions 5 (shaft_user exGhostShaftee exOneUser).2).length =
      (get_last_transactions 5 exOneUser).length ∧
    (shaft_user exGhostShafter exOneUser).1 = Except.ok () := by
  obtain ⟨h1, h2, h3, h4⟩ := append_unknown_shaftee exGhostShaftee exOneUser (by decide)
  exact ⟨h1, h2, h3 5, h4 exGhostShafter (by decide)⟩

/-- C4: `get_last_transactions n` has length `min n (#transactions)` and
its `i`-th element is the `i`-th transaction counted from the end of the
ledger — strictly reverse insertion order, newest first, independent of
the stored timestamps (the query orders by the autoincrement id, so ties
in timestamp are broken newest-appended-first). -/
theorem recent_transactions (st : DBState) (n : Nat) :
    (get_last_transactions n st).length = min n st.transactions.length ∧
    (∀ i, i < (get_last_transactions n st).length →
      (get_last_transactions n st)[i]? =
        (st.transactions[st.transactions.length - 1 - i]?).map transactionOfRow) := by
  have hlen : (get_last_transactions n st).length = min n st.transactions.length := by
    simp [get_last_transactions]
  refine ⟨hlen, fun i hi => ?_⟩
  rw [hlen] at hi
  unfold get_last_transactions
  rw [List.getElem?_map, List.getElem?_take,
    if_pos (lt_of_lt_of_le hi (min_le_left n st.transactions.length)),
    List.getElem?_reverse (lt_of_lt_of_le hi (min_le_right n st.transactions.length))]

/-- A ledger with three transactions sharing one timestamp, to exercise
the ordering of `get_last_transactions`. -/
def exThreeTxns : DBState :=
  ⟨[], [("alice", "Alice"), ("bob", "Bob")], [],
    [⟨"alice", "bob", 1, 10, "t1"⟩, ⟨"alice", "bob", 2, 10, "t2"⟩,
      ⟨"bob", "alice", 3, 10, "t3"⟩]⟩

/-- Witness for C4: with three appended transactions, `recent 2` has
length two and its first element is the newest transaction. -/
theorem recent_transactions_witness :
    (get_last_transactions 2 exThreeTxns).length =
      min 2 exThreeTxns.transactions.length ∧
    (get_last_transactions 2 exThreeTxns)[0]? =
      (exThreeTxns.transactions[exThreeTxns.transactions.length - 1 - 0]?).map
        transactionOfRow :=
  ⟨(recent_transactions exThreeTxns 2).1,
    (recent_transactions exThreeTxns 2).2 0 (by decide)⟩

/-- C5: `get_all_users` returns exactly one entry per registered user —
including users occurring in no transaction — whose balance field equals
`get_balance_for_user`, ordered ascending by balance. -/
theorem all_balances_contract (st : DBState)
    (hnd : (st.users.map Prod.fst).Nodup) :
    ((get_all_users st).map Prod.fst).Perm (st.users.map Prod.fst) ∧
    ((get_all_users st).map Prod.fst).Nodup ∧
    (∀ p ∈ get_all_users st, p.2.user_id = p.1 ∧
      (p.1, p.2.display_name) ∈ st.users ∧
      p.2.balance = get_balance_for_user p.1 st) ∧
    List.Pairwise byBalance (get_all_users st) := by
  have hperm : (get_all_users st).Perm
      (st.users.map (fun p =>
        (p.1, User.mk p.1 p.2 ((balanceSubquery p.1 st.transactions).getD 0)))) :=
    List.perm_insertionSort byBalance _
  have hkeys : ((st.users.map (fun p =>
      (p.1, User.mk p.1 p.2 ((balanceSubquery p.1 st.transactions).getD 0)))).map
        Prod.fst) = st.users.map Prod.fst := by
    simp [List.map_map]
  have hpk := hperm.map Prod.fst
  rw [hkeys] at hpk
  refine ⟨hpk, hpk.nodup_iff.mpr hnd, fun p hp => ?_,
    List.sorted_insertionSort byBalance _⟩
  have hmem := hperm.mem_iff.mp hp
  obtain ⟨q, hq, he⟩ := List.mem_map.mp hmem
  rw [← he]
  exact ⟨rfl, by simpa using hq, balanceSubquery_eq_balance q.1 st⟩

/-- The end-to-end scenario state: alice has shafted bob for 500. -/
def exE2E : DBState :=
  ⟨[], [("alice", "Alice"), ("bob", "Bob")], [],
    [⟨"alice", "bob", 500, 0, "lunch"⟩]⟩

/-- Witness for C5 at the end-to-end scenario: the entries cover exactly
alice and bob, sorted ascending by balance, and bob's entry carries the
recomputed balance. -/
theorem all_balances_contract_witness :
    ((get_all_users exE2E).map Prod.fst).Perm (exE2E.users.map Prod.fst) ∧
    List.Pairwise byBalance (get_all_users exE2E) ∧
    (User.mk "bob" "Bob" (-500)).balance = get_balance_for_user "bob" exE2E := by
  obtain ⟨h1, h2, h3, h4⟩ := all_balances_contract exE2E (by decide)
  exact ⟨h1, h4, (h3 ("bob", User.mk "bob" "Bob" (-500)) (by decide)).2.2⟩

/-- C6: the balance computed inline by `get_user_from_token`'s aggregate
subquery agrees with `get_balance_for_user` on every ledger; a token with
exactly one binding to a registered user resolves to that user's id,
display name and current balance; a token with no binding resolves to
`none`. -/
theorem resolve_token_contract (tok : String) (st : DBState) :
    (∀ u, (balanceSubquery u st.transactions).getD 0 = get_balance_for_user u st) ∧
    (∀ u d, st.tokens.filter (fun r => r.2 == tok) = [(u, tok)] →
      st.users.lookup u = some d →
      get_user_from_token tok st = some (User.mk u d (get_balance_for_user u st))) ∧
    (st.tokens.filter (fun r => r.2 == tok) = [] →
      get_user_from_token tok st = none) := by
  refine ⟨fun u => balanceSubquery_eq_balance u st, fun u d hf hl => ?_, fun hf => ?_⟩
  · unfold get_user_from_token
    rw [hf]
    simp [hl, balanceSubquery_eq_balance]
  · unfold get_user_from_token
    rw [hf]
    rfl

/-- A state with one registered user holding one session token. -/
def exToken : DBState := ⟨[], [("alice", "Alice")], [("alice", "tok123")], []⟩

/-- Witness for C6: the bound token resolves to alice's full record with
her current balance; an unbound token resolves to `none`. -/
theorem resolve_token_contract_witness :
    get_user_from_token "tok123" exToken =
      some (User.mk "alice" "Alice" (get_balance_for_user "alice" exToken)) ∧
    get_user_from_token "missing" exToken = none := by
  obtain ⟨h1, h2, h3⟩ := resolve_token_contract "tok123" exToken
  obtain ⟨g1, g2, g3⟩ := resolve_token_contract "missing" exToken
  exact ⟨h2 "alice" "Alice" (by decide) (by decide), g3 (by decide)⟩

theorem filter_neg_token_idem (tok : String) (l : List (String × String)) :
    (l.filter (fun r => !(r.2 == tok))).filter (fun r => !(r.2 == tok)) =
      l.filter (fun r => !(r.2 == tok)) := by
  induction l with
  | nil => rfl
  | cons r l ih =>
    by_cases h : (r.2 == tok) = true
    · simp [List.filter_cons, h, ih]
    · simp [List.filter_cons, Bool.eq_false_iff.mpr h, ih]

theorem filter_token_of_deleted (tok : String) (l : List (String × String)) :
    (l.filter (fun r => !(r.2 == tok))).filter (fun r => r.2 == tok) = [] := by
  induction l with
  | nil => rfl
  | cons r l ih =>
    by_cases h : (r.2 == tok) = true
    · simp [List.filter_cons, h, ih]
    · simp [List.filter_cons, Bool.eq_false_iff.mpr h, ih]

/-- C7: `delete_token` always succeeds, deleting the same token twice is a
no-op equal to deleting it once (idempotent, no error on an unknown or
already-revoked token), and after deletion the token no longer resolves. -/
theorem revoke_idempotent (tok : String) (st : DBState) :
    (delete_token tok st).1 = Except.ok () ∧
    delete_token tok (delete_token tok st).2 = (Except.ok (), (delete_token tok st).2) ∧
    get_user_from_token tok (delete_token tok st).2 = none := by
  refine ⟨rfl, ?_, ?_⟩
  · simp [delete_token, filter_neg_token_idem]
  · unfold get_user_from_token delete_token
    rw [show ({ st with tokens := st.tokens.filter (fun r => !(r.2 == tok)) } :
      DBState).tokens = st.tokens.filter (fun r => !(r.2 == tok)) from rfl,
      filter_token_of_deleted]
    rfl

/-- A state where the github id "gh1" is already linked. -/
def exLinked : DBState := ⟨[("gh1", "gh1")], [("gh1", "Nina")], [], []⟩

/-- A state where "gh2" exists in `users` but is not linked in
`github_users`, so `add_user_by_github_id`'s second INSERT is the one
that violates a constraint. -/
def exHalf : DBState := ⟨[], [("gh2", "Xan")], [], []⟩

/-- C8 (counterexample): creating a user whose github id is already
linked fails with the generic `sqliteError` (the surfaced PRIMARY KEY
violation), the very same error value produced by an unrelated UNIQUE
violation on the `users` table — the error taxonomy of `DatabaseError`
has no `Conflict` variant, so the failure is not distinguished from other
SQLite-level failures. -/
theorem conflict_counterexample :
    (add_user_by_github_id "gh1" "Other" exLinked).1 =
      Except.error DatabaseError.sqliteError ∧
    (add_user_by_github_id "gh2" "Other" exHalf).1 =
      Except.error DatabaseError.sqliteError := by
  constructor
  · rfl
  · rfl

/-- C8 (amended): for an already-linked github id,
`add_user_by_github_id` fails with the generic `sqliteError` — the source
`DatabaseError` enum has no `Conflict` variant — and the failure of the
first INSERT leaves the state unchanged: no second user and no second
link are created. -/
theorem conflict_amended (gid name : String) (st : DBState)
    (h : gid ∈ st.github_users.map Prod.fst) :
    (add_user_by_github_id gid name st).1 = Except.error DatabaseError.sqliteError ∧
    (add_user_by_github_id gid name st).2 = st := by
  have hc : st.github_users.any (fun r => r.1 == gid) = true := by
    simp only [List.any_eq_true, beq_iff_eq]
    obtain ⟨q, hq, he⟩ := List.mem_map.mp h
    exact ⟨q, hq, he⟩
  unfold add_user_by_github_id
  rw [if_pos hc]
  exact ⟨rfl, rfl⟩

/-- Witness for C8 (amended): re-linking "gh1" fails with `sqliteError`
and leaves the state unchanged. -/
theorem conflict_amended_witness :
    (add_user_by_github_id "gh1" "Nina2" exLinked).1 =
      Except.error DatabaseError.sqliteError ∧
    (add_user_by_github_id "gh1" "Nina2" exLinked).2 = exLinked :=
  conflict_amended "gh1" "Nina2" exLinked (by decide)

/-- C9 (counterexample): `create_token_for_user` performs no user check
and the `tokens` table has no foreign-key constraint, so creating a token
for a user id that references no existing user succeeds instead of
failing with `UnknownUser`. -/
theorem create_token_counterexample :
    ("ghost" ∉ emptyDB.users.map Prod.fst) ∧
    (create_token_for_user "tok" "ghost" emptyDB).1 = Except.ok "tok" := by
  constructor
  · decide
  · rfl

/-- C9 (amended): `create_token_for_user` succeeds for every user id
(registered or not) and persists the token-to-user binding; for a
registered user and a fresh token, the new binding makes the token
resolve to that user's record. -/
theorem create_token_amended (tok uid : String) (st : DBState) :
    (create_token_for_user tok uid st).1 = Except.ok tok ∧
    (create_token_for_user tok uid st).2.tokens = st.tokens ++ [(uid, tok)] ∧
    (∀ d, st.tokens.filter (fun r => r.2 == tok) = [] →
      st.users.lookup uid = some d →
      get_user_from_token tok (create_token_for_user tok uid st).2 =
        some (User.mk uid d (get_balance_for_user uid st))) := by
  refine ⟨rfl, rfl, fun d hf hl => ?_⟩
  unfold get_user_from_token create_token_for_user
  rw [show ({ st with tokens := st.tokens ++ [(uid, tok)] } : DBState).tokens
    = st.tokens ++ [(uid, tok)] from rfl, List.filter_append, hf]
  simp [hl, balanceSubquery_eq_balance]

/-- Witness for C9 (amended): a fresh token for the registered user
"alice" is persisted and resolves to her record. -/
theorem create_token_amended_witness :
    (create_token_for_user "tokXYZ" "alice" exOneUser).1 = Except.ok "tokXYZ" ∧
    (create_token_for_user "tokXYZ" "alice" exOneUser).2.tokens =
      exOneUser.tokens ++ [("alice", "tokXYZ")] ∧
    get_user_from_token "tokXYZ" (create_token_for_user "tokXYZ" "alice" exOneUser).2 =
      some (User.mk "alice" "Alice" (get_balance_for_user "alice" exOneUser)) := by
  obtain ⟨h1, h2, h3⟩ := create_token_amended "tokXYZ" "alice" exOneUser
  exact ⟨h1, h2, h3 "Alice" (by decide) (by decide)⟩

/-- A run in which the RNG hands `create_token_for_user` the same token
twice, for two different users. -/
def exCollide : List Op :=
  [Op.addUser "a" "A", Op.addUser "b" "B",
    Op.createToken "tok" "a", Op.createToken "tok" "b"]

/-- C10 (counterexample): the `tokens` table has no uniqueness constraint
and `create_token_for_user` does not check for collisions, so a reachable
state (two `createToken` steps whose RNG outputs collide) associates the
single token "tok" with two distinct user ids. -/
theorem token_uniqueness_counterexample :
    ((runOps exCollide).tokens.filter (fun r => r.2 == "tok")).map Prod.fst =
      ["a", "b"] ∧
    ("a" : String) ≠ "b" := by
  constructor
  · decide
  · decide

theorem step_tokens_addUser (gid name : String) (st : DBState) :
    (step st (Op.addUser gid name)).tokens = st.tokens := by
  show (add_user_by_github_id gid name st).2.tokens = st.tokens
  unfold add_user_by_github_id
  split_ifs <;> rfl

theorem step_tokens_shaft (t : Transaction) (st : DBState) :
    (step st (Op.shaft t)).tokens = st.tokens := by
  show (shaft_user t st).2.tokens = st.tokens
  unfold shaft_user
  split_ifs <;> rfl

theorem tokens_nodup_invariant (ops : List Op) (st : DBState)
    (h1 : (st.tokens.map Prod.snd).Nodup)
    (h2 : ∀ tok ∈ createdTokens ops, tok ∉ st.tokens.map Prod.snd)
    (h3 : (createdTokens ops).Nodup) :
    ((ops.foldl step st).tokens.map Prod.snd).Nodup := by
  induction ops generalizing st with
  | nil => exact h1
  | cons op rest ih =>
    rw [List.foldl_cons]
    cases op with
    | addUser gid name =>
      apply ih
      · rw [step_tokens_addUser]
        exact h1
      · intro tok htok
        rw [step_tokens_addUser]
        exact h2 tok htok
      · exact h3
    | shaft t =>
      apply ih
      · rw [step_tokens_shaft]
        exact h1
      · intro tok htok
        rw [step_tokens_shaft]
        exact h2 tok htok
      · exact h3
    | revoke tok0 =>
      have hsub : ((st.tokens.filter (fun r => !(r.2 == tok0))).map Prod.snd).Sublist
          (st.tokens.map Prod.snd) := (List.filter_sublist st.tokens).map Prod.snd
      apply ih
      · exact List.Nodup.sublist hsub h1
      · intro tok htok hmem
        exact h2 tok htok (hsub.subset hmem)
      · exact h3
    | createToken tok0 uid =>
      have hfresh : tok0 ∉ st.tokens.map Prod.snd :=
        h2 tok0 (List.mem_cons_self tok0 (createdTokens rest))
      apply ih
      · show ((st.tokens ++ [(uid, tok0)]).map Prod.snd).Nodup
        rw [List.map_append]
        refine List.Nodup.append h1 (List.nodup_singleton tok0) ?_
        intro x hx hx'
        have : x = tok0 := by simpa using hx'
        exact hfresh (this ▸ hx)
      · intro tok htok
        have hne : tok ≠ tok0 := by
          intro he
          exact (List.nodup_cons.mp h3).1 (he ▸ htok)
        have hold : tok ∉ st.tokens.map Prod.snd :=
          h2 tok (List.mem_cons_of_mem tok0 htok)
        show tok ∉ (st.tokens ++ [(uid, tok0)]).map Prod.snd
        rw [List.map_append]
        intro hmem
        rcases List.mem_append.mp hmem with hmm | hmm
        · exact hold hmm
        · exact hne (by simpa using hmm)
      · exact (List.nodup_cons.mp h3).2

theorem snd_nodup_pair_eq (l : List (String × String))
    (h : (l.map Prod.snd).Nodup) :
    ∀ p q : String × String, p ∈ l → q ∈ l → p.2 = q.2 → p = q := by
  induction l with
  | nil =>
    intro p q hp _ _
    exact absurd hp (List.not_mem_nil p)
  | cons a l ih =>
    intro p q hp hq he
    rw [List.map_cons] at h
    rcases List.mem_cons.mp hp with hp1 | hp1 <;> rcases List.mem_cons.mp hq with hq1 | hq1
    · rw [hp1, hq1]
    · exfalso
      apply (List.nodup_cons.mp h).1
      rw [← hp1, he]
      exact List.mem_map_of_mem Prod.snd hq1
    · exfalso
      apply (List.nodup_cons.mp h).1
      rw [← hq1, ← he]
      exact List.mem_map_of_mem Prod.snd hp1
    · exact ih (List.nodup_cons.mp h).2 p q hp1 hq1 he

/-- C10 (amended): provided the tokens drawn by the RNG along a run are
pairwise distinct — which the 32-character random alphanumeric generation
guarantees except with negligible probability, but which the code does
not enforce — every reachable state associates each token with at most
one user id. -/
theorem token_uniqueness_amended (ops : List Op)
    (h : (createdTokens ops).Nodup) :
    ∀ u1 u2 tok, (u1, tok) ∈ (runOps ops).tokens →
      (u2, tok) ∈ (runOps ops).tokens → u1 = u2 := by
  intro u1 u2 tok hm1 hm2
  have hnd : ((runOps ops).tokens.map Prod.snd).Nodup := by
    unfold runOps
    refine tokens_nodup_invariant ops emptyDB List.nodup_nil ?_ h
    intro tok' _ hmem
    exact absurd hmem (List.not_mem_nil tok')
  have hpq := snd_nodup_pair_eq (runOps ops).tokens hnd (u1, tok) (u2, tok) hm1 hm2 rfl
  exact (Prod.ext_iff.mp hpq).1

/-- A run whose RNG outputs are pairwise distinct. -/
def exDistinct : List Op :=
  [Op.addUser "a" "A", Op.createToken "t1" "a", Op.createToken "t2" "a"]

/-- Witness for C10 (amended): in a run with distinct RNG outputs, the
binding of "t1" determines its user uniquely. -/
theorem token_uniqueness_amended_witness :
    (createdTokens exDistinct).Nodup ∧
    ("a", "t1") ∈ (runOps exDistinct).tokens ∧
    ("a" : String) = "a" :=
  ⟨by decide, by decide,
    token_uniqueness_amended exDistinct (by decide) "a" "a" "t1" (by decide) (by decide)⟩

end Shaft
